import Mathlib

/-!
# Verification of the `timesignal` models (`EventSignal`, `EventOrchestra`)

Shallow embedding of `src/timesignal/models/signal.py` and
`src/timesignal/models/orchestra.py`.

Modelling conventions:

* Datetimes and signal values are modelled as exact rationals (`ℚ`).  A
  datetime is identified with its epoch offset in seconds, so
  `EventSignal.encode_datetime` (`dt.timestamp()`) and
  `EventSignal.decode_datetime` (`datetime.fromtimestamp`) act as the
  identity inside the signal model.  The float64 precision of the real
  encoding is modelled separately (and faithfully, with explicit IEEE-754
  round-to-nearest-even) by `encode_datetime` / `decode_datetime` below,
  for the round-trip analysis.
* Python exceptions are modelled with `Except Err`.  The distinct Python
  exception classes matter, because `EventOrchestra` catches only
  `ValueError`: `Err.valueError` (bounds violations, scipy arity checks,
  `min()` of an empty sequence), `Err.typeError` (comparisons against
  `None`), `Err.indexError` (numpy indexing of a 0-d array),
  `Err.notImplementedError` (scipy's rejection of an unknown kind string).
  A setter that raises is modelled as returning `.error _` and producing
  no new state; the partially-mutated Python object left behind by an
  exception mid-setter is not modelled (no claim examines it).
* `scipy.interpolate.interp1d(x, y, kind, copy=False, bounds_error=True,
  assume_sorted=True)` is modelled by `Interp1d`: construction checks the
  documented minimum number of sample points per kind (2 for
  `linear`/`nearest`, `order+1 = 4` for `cubic`) and rejects unknown kind
  strings; evaluation raises `ValueError` outside `[x[0], x[-1]]`
  (`bounds_error=True`) and otherwise dispatches on the kind.  The
  `linear` call follows `numpy.interp`, to which scipy delegates this
  configuration (1-D float64 data, no extrapolation); `nearest` is
  scipy's `_call_nearest` (midpoint boundaries, ties resolved downward).
  Cubic B-spline *values* are not modelled (no claim observes the value
  of a cubic signal, only the arity check at construction); the cubic
  branch of the evaluator returns 0.
* `numpy.argsort` on the time row followed by column permutation is
  modelled as a stable sort of the (time, value) pairs by time
  (`List.insertionSort`), matching the spec's description and numpy's
  actual behaviour on small arrays (insertion sort); no claim depends on
  the tie order produced by numpy's introsort on large arrays.
-/

/-- The Python exception classes that the two modules can raise.  Only
`ValueError` is ever caught (by `EventOrchestra.get_name_value_pairs_at_datetime`). -/
inductive Err where
  | valueError
  | typeError
  | indexError
  | notImplementedError
deriving DecidableEq, Repr

/-- Interpolation kind strings accepted by `scipy.interpolate.interp1d`.
`unknown` stands for any string outside the supported set (scipy raises
`NotImplementedError` for those). -/
inductive Kind where
  | linear
  | nearest
  | cubic
  | unknown
deriving DecidableEq, Repr

/-- Minimum number of sample points `interp1d` requires for a kind
("x and y arrays must have at least %d entries"): 2 for `linear` and
`nearest`, `order + 1 = 4` for `cubic`.  `none` marks an unsupported kind. -/
def Kind.minval : Kind → Option ℕ
  | .linear => some 2
  | .nearest => some 2
  | .cubic => some 4
  | .unknown => none

/-- The state of a constructed `scipy.interpolate.interp1d` object:
the (assumed sorted) abscissae, the ordinates, and the kind. -/
structure Interp1d where
  x : List ℚ
  y : List ℚ
  kind : Kind
deriving DecidableEq, Repr

/-- `interp1d(x, y, kind, copy=False, bounds_error=True, assume_sorted=True)`:
rejects unknown kinds (`NotImplementedError`) and too few points
(`ValueError`), otherwise returns the evaluator state. -/
def interp1d (x y : List ℚ) (kind : Kind) : Except Err Interp1d :=
  match kind.minval with
  | none => .error .notImplementedError
  | some m => if x.length < m then .error .valueError else .ok ⟨x, y, kind⟩

/-- `numpy.searchsorted(xs, q)` (side `left`) on a sorted list: the number
of leading elements strictly below `q`. -/
def searchsorted (xs : List ℚ) (q : ℚ) : ℕ :=
  (xs.takeWhile (fun a => decide (a < q))).length

/-- The linear evaluator.  With 1-D float64 data and no extrapolation
configured (exactly this module's configuration) scipy delegates
`kind='linear'` calls to `numpy.interp`: take the largest `j` with
`x[j] ≤ q`; at (or beyond) the last abscissa answer the last ordinate,
otherwise interpolate linearly on `[x[j], x[j+1]]`.  At a duplicated
abscissa this reads the last of the duplicates.  Only in-bounds queries
reach this function (the `bounds_error` check turns the rest into
`ValueError`). -/
def callLinear (f : Interp1d) (q : ℚ) : ℚ :=
  let j := (f.x.countP (fun a => decide (a ≤ q))) - 1
  if f.x.length - 1 ≤ j then f.y.getLastD 0
  else
    (f.y.getD (j + 1) 0 - f.y.getD j 0) / (f.x.getD (j + 1) 0 - f.x.getD j 0)
      * (q - f.x.getD j 0) + f.y.getD j 0

/-- Midpoints `(x[i] + x[i+1]) / 2` (scipy's `x_bds` for `nearest`). -/
def midpoints : List ℚ → List ℚ
  | a :: b :: rest => (a + b) / 2 :: midpoints (b :: rest)
  | _ => []

/-- scipy `interp1d._call_nearest` for kind `nearest`: index by
searchsorted into the midpoint boundaries; a query exactly on a midpoint
resolves to the lower neighbour. -/
def callNearest (f : Interp1d) (q : ℚ) : ℚ :=
  f.y.getD (searchsorted (midpoints f.x) q) 0

/-- The value an `interp1d` evaluator produces at an in-bounds query,
dispatched on the kind (cubic spline values are not modelled, see the
module docstring). -/
def Interp1d.evalVal (f : Interp1d) (q : ℚ) : ℚ :=
  match f.kind with
  | .linear => callLinear f q
  | .nearest => callNearest f q
  | .cubic => 0
  | .unknown => 0

/-- Calling the evaluator with `bounds_error=True`: a query below `x[0]`
or above `x[-1]` raises `ValueError`, otherwise the interpolated value is
returned. -/
def Interp1d.eval (f : Interp1d) (q : ℚ) : Except Err ℚ :=
  if q < f.x.headD 0 ∨ f.x.getLastD 0 < q then .error .valueError
  else .ok (f.evalVal q)

/-- The mutable state of an `EventSignal`: `_data` (the 2×N array, stored
as a list of `(time, value)` columns, `none` when unset), `_interpolation`
(the kind tag) and `_interpolate` (the evaluator, `none` when unset). -/
structure EventSignal where
  data : Option (List (ℚ × ℚ))
  interpolation : Kind
  interpolate : Option Interp1d
deriving DecidableEq, Repr

/-- `EventSignal.start` property: `None` when `_data is None`, else the
decoded first timestamp `self._data[0, 0]`. -/
def EventSignal.start (s : EventSignal) : Option ℚ :=
  match s.data with
  | none => none
  | some d => some (d.headD (0, 0)).1

/-- `EventSignal.end` property: `None` when `_data is None`, else the
decoded last timestamp `self._data[0, -1]`. -/
def EventSignal.end_ (s : EventSignal) : Option ℚ :=
  match s.data with
  | none => none
  | some d => some (d.getLastD (0, 0)).1

/-- `EventSignal._check_time_index`: `if time_index < self.start or
time_index > self.end: raise ValueError(...)`.  When `_data is None` the
properties return `None` and the comparison `datetime < None` raises
`TypeError`. -/
def check_time_index (s : EventSignal) (t : ℚ) : Except Err Unit :=
  match s.start, s.end_ with
  | some st, some en => if t < st ∨ en < t then .error .valueError else .ok ()
  | _, _ => .error .typeError

/-- `EventSignal.get_value_at_datetime` (also `__getitem__`): bounds check,
then evaluate the interpolator at the encoded datetime.  When
`_interpolate is None`, Python would call `None` — a `TypeError` — but the
bounds check has already raised `TypeError` in every reachable such state. -/
def get_value_at_datetime (s : EventSignal) (t : ℚ) : Except Err ℚ := do
  _ ← check_time_index s t
  match s.interpolate with
  | some f => f.eval t
  | none => .error .typeError

/-- The `interpolation` setter: store the tag; if `_data` is present,
rebuild `_interpolate` from the current rows with the new kind.  With no
data nothing is validated. -/
def set_interpolation (s : EventSignal) (value : Kind) : Except Err EventSignal :=
  match s.data with
  | none => .ok { s with interpolation := value }
  | some d => do
      let f ← interp1d (d.map Prod.fst) (d.map Prod.snd) value
      .ok { s with interpolation := value, interpolate := some f }

/-- The `values` setter: build the 2×N array of (encoded time, float value)
columns, sort the columns by time (`argsort` on the time row; stable, see
the module docstring), then re-run the `interpolation` setter with the
current tag to rebuild the evaluator.  An empty batch builds a
zero-length 1-D `numpy` array, and `self._data[0, :]` on it raises
`IndexError` before sorting. -/
def set_values (s : EventSignal) (values : List (ℚ × ℚ)) : Except Err EventSignal :=
  match values with
  | [] => .error .indexError
  | _ =>
      let d := values.insertionSort (fun a b => a.1 ≤ b.1)
      set_interpolation { s with data := some d } s.interpolation

/-- `EventSignal.__init__(values, interpolation)`: start with
`_data = None`, `_interpolate = None`, the given tag; seed via the
`values` setter when a batch is supplied. -/
def EventSignal.init (values : Option (List (ℚ × ℚ))) (interpolation : Kind) :
    Except Err EventSignal :=
  let s : EventSignal := ⟨none, interpolation, none⟩
  match values with
  | none => .ok s
  | some v => set_values s v

/-- An element of an `EventOrchestra`: either an `EventSignal` or a nested
orchestra (modelled by its insertion-ordered name→element association
list, i.e. the Python `dict`). -/
inductive Element where
  | signal : EventSignal → Element
  | orchestra : List (String × Element) → Element

/-- A snapshot value: a scalar (from a signal child) or a nested
dictionary (from an orchestra child). -/
inductive SnapValue where
  | scalar : ℚ → SnapValue
  | dict : List (String × SnapValue) → SnapValue

mutual

/-- `element[time_index]` (`__getitem__`): a signal child answers
`get_value_at_datetime`; an orchestra child answers
`get_dict_at_datetime`. -/
def Element.getitem : Element → ℚ → Except Err SnapValue
  | .signal s, t => (get_value_at_datetime s t).map SnapValue.scalar
  | .orchestra elems, t => (getDictList elems t).map SnapValue.dict

/-- `EventOrchestra.get_name_value_pairs_at_datetime` fused with
`get_dict_at_datetime`: walk the children in insertion order, look each up
at the instant, keep successes, suppress exactly `ValueError`
(the `try/except ValueError: pass`), and propagate every other
exception.  (The `isinstance(value, EventOrchestra)` test in the Python
`get_dict_at_datetime` is dead code: `signal[time_index]` has already
converted an orchestra child into a `dict`.) -/
def getDictList : List (String × Element) → ℚ → Except Err (List (String × SnapValue))
  | [], _ => .ok []
  | (n, e) :: rest, t =>
      match Element.getitem e t with
      | .ok v => (getDictList rest t).map (fun l => (n, v) :: l)
      | .error .valueError => getDictList rest t
      | .error err => .error err

end

/-!
## Precision-aware model of the time encoding

`EventSignal.encode_datetime(dt) = dt.timestamp()` and
`EventSignal.decode_datetime(ts) = datetime.fromtimestamp(ts)`.  `datetime`
values carry microsecond precision, so a datetime is modelled by its epoch
offset in integer microseconds (timezone fixed to UTC; a fixed whole-second
offset would cancel out of the round trip).  `timestamp()` divides the
exact integer microsecond count by `10^6` in IEEE-754 binary64, i.e. it
returns the correctly-rounded (round-to-nearest, ties-to-even) double of
`t / 10^6`; `fromtimestamp` rounds the float's microsecond count back to
the nearest integer microsecond (half-to-even).  Doubles are dyadic
rationals, so both maps are modelled exactly on `ℚ` (exponent range and
subnormals are irrelevant at these magnitudes and are not modelled). -/

/-- Round to the nearest integer, ties to even (Python `round`, and the
IEEE-754 default rounding applied to a scaled significand). -/
def roundHalfEven (x : ℚ) : ℤ :=
  if x - ⌊x⌋ < 1 / 2 then ⌊x⌋
  else if 1 / 2 < x - ⌊x⌋ then ⌊x⌋ + 1
  else if 2 ∣ ⌊x⌋ then ⌊x⌋ else ⌊x⌋ + 1

/-- Round a rational to the nearest IEEE-754 binary64 value (ties to
even): scale by the power of two that normalises the significand to
`[2^52, 2^53)`, round to an integer, scale back. -/
def fl64 (x : ℚ) : ℚ :=
  if x = 0 then 0
  else if 0 < x then
    (roundHalfEven (x * 2 ^ (52 - Int.log 2 x)) : ℚ) * 2 ^ (Int.log 2 x - 52)
  else
    -((roundHalfEven (-x * 2 ^ (52 - Int.log 2 (-x))) : ℚ) * 2 ^ (Int.log 2 (-x) - 52))

/-- `EventSignal.encode_datetime`: `dt.timestamp()` — the correctly
rounded double of the datetime's epoch seconds `t / 10^6` (with `t` the
datetime as integer microseconds). -/
def encode_datetime (t : ℤ) : ℚ :=
  fl64 ((t : ℚ) / 10 ^ 6)

/-- `EventSignal.decode_datetime`: `datetime.fromtimestamp(ts)` — the
datetime (integer microseconds) nearest to the float's second count. -/
def decode_datetime (f : ℚ) : ℤ :=
  roundHalfEven (f * 10 ^ 6)

/-- `EventOrchestra.get_dict_at_datetime` on an orchestra given by its
element list. -/
def get_dict_at_datetime (elems : List (String × Element)) (t : ℚ) :
    Except Err (List (String × SnapValue)) :=
  getDictList elems t

mutual

/-- `element.start`: the signal property (which may be `None`), or for an
orchestra `min(element.start for element in self._elements.values())` —
`ValueError` on zero children, lazily folding `min` over the children
otherwise (comparing anything against `None` raises `TypeError`). -/
def Element.startE : Element → Except Err (Option ℚ)
  | .signal s => .ok s.start
  | .orchestra [] => .error .valueError
  | .orchestra ((_, e) :: rest) => do
      minFoldStart (← Element.startE e) rest

/-- The fold Python's `min` performs over the remaining children's `start`
values: keep the smaller (the earlier one on ties), `TypeError` as soon as
a `None` meets a comparison. -/
def minFoldStart : Option ℚ → List (String × Element) → Except Err (Option ℚ)
  | acc, [] => .ok acc
  | acc, (_, e) :: rest => do
      match acc, (← Element.startE e) with
      | some a, some b => minFoldStart (some (if b < a then b else a)) rest
      | _, _ => .error .typeError

end

mutual

/-- `element.end`: the signal property, or for an orchestra
`max(element.end for element in self._elements.values())`. -/
def Element.endE : Element → Except Err (Option ℚ)
  | .signal s => .ok s.end_
  | .orchestra [] => .error .valueError
  | .orchestra ((_, e) :: rest) => do
      maxFoldEnd (← Element.endE e) rest

/-- The fold Python's `max` performs over the remaining children's `end`
values: keep the larger (the earlier one on ties), `TypeError` as soon as
a `None` meets a comparison. -/
def maxFoldEnd : Option ℚ → List (String × Element) → Except Err (Option ℚ)
  | acc, [] => .ok acc
  | acc, (_, e) :: rest => do
      match acc, (← Element.endE e) with
      | some a, some b => maxFoldEnd (some (if a < b then b else a)) rest
      | _, _ => .error .typeError

end

/-! ## Derived notions used by the claims -/

instance {e a : Type} [DecidableEq e] [DecidableEq a] : DecidableEq (Except e a) := fun
  | .ok x, .ok y => if h : x = y then .isTrue (by rw [h]) else .isFalse (by simp [h])
  | .ok _, .error _ => .isFalse (by simp)
  | .error _, .ok _ => .isFalse (by simp)
  | .error x, .error y => if h : x = y then .isTrue (by rw [h]) else .isFalse (by simp [h])

instance : IsTotal (ℚ × ℚ) (fun a b => a.1 ≤ b.1) := ⟨fun a b => le_total a.1 b.1⟩

instance : IsTrans (ℚ × ℚ) (fun a b => a.1 ≤ b.1) := ⟨fun _ _ _ => le_trans⟩

/-- The first stored (encoded) timestamp of a signal, as a plain rational
(0 when no data: only used under a well-formedness hypothesis). -/
def sigStart (s : EventSignal) : ℚ := ((s.data.getD []).headD (0, 0)).1

/-- The last stored (encoded) timestamp of a signal. -/
def sigEnd (s : EventSignal) : ℚ := ((s.data.getD []).getLastD (0, 0)).1

/-- The value the signal's evaluator yields at `t`, ignoring bounds
(0 when no evaluator is installed: only used under well-formedness). -/
def sigVal (s : EventSignal) (t : ℚ) : ℚ :=
  match s.interpolate with
  | some f => f.evalVal t
  | none => 0

/-- Sortedness (non-decreasing by the first component) of a sample list,
as a boolean so that concrete states can be checked by evaluation. -/
def sortedByTime : List (ℚ × ℚ) → Bool
  | [] => true
  | [_] => true
  | a :: b :: rest => decide (a.1 ≤ b.1) && sortedByTime (b :: rest)

theorem sortedByTime_iff_chain' (d : List (ℚ × ℚ)) :
    sortedByTime d = true ↔ List.Chain' (· ≤ ·) (d.map Prod.fst) := by
  induction d with
  | nil => simp [sortedByTime]
  | cons a l ih =>
    cases l with
    | nil => simp [sortedByTime]
    | cons b m =>
      rw [List.map_cons, List.map_cons, List.chain'_cons, ← List.map_cons]
      unfold sortedByTime
      rw [Bool.and_eq_true, decide_eq_true_eq, ih]

/-- The states reachable by building a signal from at least one sample:
`_data` holds a nonempty time-sorted sample list and `_interpolate` is the
evaluator rebuilt from exactly those rows with the current kind tag
(every successful `values` / `interpolation` setter call reestablishes
this). -/
def WellFormed (s : EventSignal) : Prop :=
  s.data = some (s.data.getD []) ∧
  s.interpolate = some ⟨(s.data.getD []).map Prod.fst,
    (s.data.getD []).map Prod.snd, s.interpolation⟩ ∧
  s.data.getD [] ≠ [] ∧
  sortedByTime (s.data.getD []) = true

instance (s : EventSignal) : Decidable (WellFormed s) :=
  inferInstanceAs (Decidable (s.data = some (s.data.getD []) ∧
    s.interpolate = some ⟨(s.data.getD []).map Prod.fst,
      (s.data.getD []).map Prod.snd, s.interpolation⟩ ∧
    s.data.getD [] ≠ [] ∧ sortedByTime (s.data.getD []) = true))

theorem wellFormed_iff (s : EventSignal) :
    WellFormed s ↔ ∃ d, s.data = some d ∧
      s.interpolate = some ⟨d.map Prod.fst, d.map Prod.snd, s.interpolation⟩ ∧
      d ≠ [] ∧ List.Chain' (· ≤ ·) (d.map Prod.fst) := by
  unfold WellFormed
  constructor
  · rintro ⟨h1, h2, h3, h4⟩
    exact ⟨s.data.getD [], h1, h2, h3, (sortedByTime_iff_chain' _).mp h4⟩
  · rintro ⟨d, h1, h2, h3, h4⟩
    rw [h1]
    refine ⟨rfl, by simpa using h2, by simpa using h3, ?_⟩
    simpa using (sortedByTime_iff_chain' d).mpr h4

theorem headD_map_fst (d : List (ℚ × ℚ)) (hd : d ≠ []) :
    (d.map Prod.fst).headD 0 = (d.headD (0, 0)).1 := by
  cases d with
  | nil => exact absurd rfl hd
  | cons a l => simp

theorem getLastD_map_fst (d : List (ℚ × ℚ)) (hd : d ≠ []) :
    (d.map Prod.fst).getLastD 0 = (d.getLastD (0, 0)).1 := by
  induction d with
  | nil => exact absurd rfl hd
  | cons a l ih =>
    cases l with
    | nil => simp
    | cons b m =>
      rw [List.map_cons, List.getLastD_cons, List.getLastD_cons]
      exact ih (by simp)

theorem chain'_headD_le_getLastD (l : List ℚ) (h : List.Chain' (· ≤ ·) l) (hl : l ≠ []) :
    l.headD 0 ≤ l.getLastD 0 := by
  induction l with
  | nil => exact absurd rfl hl
  | cons a m ih =>
    cases m with
    | nil => simp
    | cons b k =>
      rw [List.chain'_cons] at h
      rw [List.headD_cons, List.getLastD_cons]
      exact le_trans h.1 (by simpa using ih h.2 (by simp))

/-- The single-signal query characterization: on a well-formed signal the
lookup succeeds with the evaluator's value exactly on the closed interval
`[sigStart, sigEnd]` and raises `ValueError` outside it. -/
theorem valueAt_eq (s : EventSignal) (h : WellFormed s) (t : ℚ) :
    get_value_at_datetime s t =
      if sigStart s ≤ t ∧ t ≤ sigEnd s then .ok (sigVal s t) else .error .valueError := by
  rw [wellFormed_iff] at h
  obtain ⟨d, hd, hf, hne, _⟩ := h
  have hstart : sigStart s = (d.headD (0, 0)).1 := by
    unfold sigStart
    rw [hd]
    rfl
  have hend : sigEnd s = (d.getLastD (0, 0)).1 := by
    unfold sigEnd
    rw [hd]
    rfl
  have hval : sigVal s t
      = Interp1d.evalVal ⟨d.map Prod.fst, d.map Prod.snd, s.interpolation⟩ t := by
    unfold sigVal
    rw [hf]
  unfold get_value_at_datetime check_time_index EventSignal.start EventSignal.end_
  simp only [hd, hf]
  rw [hstart, hend, hval]
  unfold Interp1d.eval
  simp only [headD_map_fst d hne, getLastD_map_fst d hne]
  by_cases h1 : (d.headD (0, 0)).1 ≤ t
  · by_cases h2 : t ≤ (d.getLastD (0, 0)).1
    · rw [if_neg (show ¬(t < (d.headD (0, 0)).1 ∨ (d.getLastD (0, 0)).1 < t) from by
          push_neg
          exact ⟨h1, h2⟩),
        if_neg (show ¬(t < (d.headD (0, 0)).1 ∨ (d.getLastD (0, 0)).1 < t) from by
          push_neg
          exact ⟨h1, h2⟩),
        if_pos (show (d.headD (0, 0)).1 ≤ t ∧ t ≤ (d.getLastD (0, 0)).1 from ⟨h1, h2⟩)]
      rfl
    · push_neg at h2
      rw [if_pos (show t < (d.headD (0, 0)).1 ∨ (d.getLastD (0, 0)).1 < t from Or.inr h2),
        if_neg (show ¬((d.headD (0, 0)).1 ≤ t ∧ t ≤ (d.getLastD (0, 0)).1) from
          fun hc => absurd hc.2 (not_le.mpr h2))]
      rfl
  · push_neg at h1
    rw [if_pos (show t < (d.headD (0, 0)).1 ∨ (d.getLastD (0, 0)).1 < t from Or.inl h1),
      if_neg (show ¬((d.headD (0, 0)).1 ≤ t ∧ t ≤ (d.getLastD (0, 0)).1) from
        fun hc => absurd hc.1 (not_le.mpr h1))]
    rfl

theorem sigStart_le_sigEnd (s : EventSignal) (h : WellFormed s) : sigStart s ≤ sigEnd s := by
  rw [wellFormed_iff] at h
  obtain ⟨d, hd, -, hne, hchain⟩ := h
  have := chain'_headD_le_getLastD (d.map Prod.fst) hchain (by simpa using hne)
  rw [headD_map_fst d hne, getLastD_map_fst d hne] at this
  unfold sigStart sigEnd
  rw [hd]
  exact this

/-- C2: on a Signal built from samples spanning `[sigStart, sigEnd]`, the
lookup `get_value_at_datetime` raises `ValueError` (`OutOfBounds`) for any
`t` before the first or after the last sample, and succeeds — returning
the evaluator's value, with no error — at both endpoints. -/
theorem signal_bounds (s : EventSignal) (h : WellFormed s) (t : ℚ) :
    ((t < sigStart s ∨ sigEnd s < t) → get_value_at_datetime s t = .error .valueError)
    ∧ get_value_at_datetime s (sigStart s) = .ok (sigVal s (sigStart s))
    ∧ get_value_at_datetime s (sigEnd s) = .ok (sigVal s (sigEnd s)) := by
  have hle := sigStart_le_sigEnd s h
  refine ⟨fun hout => ?_, ?_, ?_⟩
  · rw [valueAt_eq s h t, if_neg]
    rintro ⟨hc1, hc2⟩
    rcases hout with h' | h' <;> linarith
  · rw [valueAt_eq s h, if_pos ⟨le_refl _, hle⟩]
  · rw [valueAt_eq s h, if_pos ⟨hle, le_refl _⟩]

/-- A concrete two-sample signal (samples at times 0 and 10 with values 1
and 3, linear interpolation), in the state `set_values` produces. -/
def sigC2 : EventSignal :=
  ⟨some [(0, 1), (10, 3)], Kind.linear, some ⟨[0, 10], [1, 3], Kind.linear⟩⟩

theorem signal_bounds_witness :
    get_value_at_datetime sigC2 11 = .error .valueError
    ∧ get_value_at_datetime sigC2 0 = .ok 1
    ∧ get_value_at_datetime sigC2 10 = .ok 3 := by
  obtain ⟨h1, h2, h3⟩ := signal_bounds sigC2 (by decide) 11
  refine ⟨h1 (by norm_num [sigStart, sigEnd, sigC2]), ?_, ?_⟩
  · have := h2
    rw [show sigStart sigC2 = 0 from rfl] at this
    rw [this]
    norm_num [sigVal, sigC2, Interp1d.evalVal, callLinear, searchsorted]
  · have := h3
    rw [show sigEnd sigC2 = 10 from rfl] at this
    rw [this]
    norm_num [sigVal, sigC2, Interp1d.evalVal, callLinear, searchsorted]

/-- C3: constructing a Signal from exactly one sample with the default
linear strategy does **not** succeed: the backend rebuild
(`interp1d`, "x and y arrays must have at least 2 entries") raises
`ValueError` from inside the `values` setter, so no single-sample signal
exists and `valueAt(t0)` is never reachable — contradicting the spec's
required degenerate-signal behaviour. -/
theorem single_sample_construction_fails :
    EventSignal.init (some [(5, 7)]) Kind.linear = .error .valueError := rfl

/-- C9 (amended): the `values` setter applied to a zero-length iterable
fails with `IndexError` for every starting state (the empty batch builds a
1-D zero-length array and `self._data[0, :]` is an invalid index). -/
theorem set_values_empty (s : EventSignal) :
    set_values s [] = .error .indexError := rfl

/-- C9 counterexample: at the concrete freshly-constructed signal, the
zero-length `values` call raises instead of succeeding. -/
theorem set_values_empty_counterexample :
    set_values ⟨none, Kind.linear, none⟩ [] = .error .indexError := rfl

/-- C6 counterexample: `start` on a Signal with no samples silently
returns the absence value `None` — it does not fail. -/
theorem empty_signal_start_counterexample :
    EventSignal.start ⟨none, Kind.linear, none⟩ = none ∧
    EventSignal.end_ ⟨none, Kind.linear, none⟩ = none := ⟨rfl, rfl⟩

/-- C6 (amended): `start`/`end` on an Orchestra with zero children fail
with `ValueError` (Python's `min()`/`max()` of an empty sequence), but on
a Signal with no samples they return the absence value `None` instead of
failing. -/
theorem empty_bounds (k : Kind) :
    Element.startE (.orchestra []) = .error .valueError
    ∧ Element.endE (.orchestra []) = .error .valueError
    ∧ EventSignal.start ⟨none, k, none⟩ = none
    ∧ EventSignal.end_ ⟨none, k, none⟩ = none := by
  refine ⟨?_, ?_, rfl, rfl⟩ <;> simp [Element.startE, Element.endE]

instance : IsAntisymm (ℚ × ℚ) (fun a b => a.1 < b.1) :=
  ⟨fun _ _ h1 h2 => absurd (lt_trans h1 h2) (lt_irrefl _)⟩

theorem insertionSort_key_sorted (v : List (ℚ × ℚ)) :
    List.Chain' (· ≤ ·) ((v.insertionSort (fun a b => a.1 ≤ b.1)).map Prod.fst) := by
  rw [List.chain'_map]
  exact (List.sorted_insertionSort (fun a b => a.1 ≤ b.1) v).chain'

theorem insertionSort_eq_of_perm (v₁ v₂ : List (ℚ × ℚ)) (hp : v₁.Perm v₂)
    (hk : (v₁.map Prod.fst).Nodup) :
    v₁.insertionSort (fun a b => a.1 ≤ b.1) = v₂.insertionSort (fun a b => a.1 ≤ b.1) := by
  have hperm : (v₁.insertionSort (fun a b => a.1 ≤ b.1)).Perm
      (v₂.insertionSort (fun a b => a.1 ≤ b.1)) :=
    (List.perm_insertionSort _ v₁).trans (hp.trans (List.perm_insertionSort _ v₂).symm)
  have strict : ∀ v : List (ℚ × ℚ), v.Perm v₁ →
      List.Sorted (fun a b : ℚ × ℚ => a.1 ≤ b.1) v →
      List.Sorted (fun a b : ℚ × ℚ => a.1 < b.1) v := by
    intro v hv hs
    have hnd : (v.map Prod.fst).Nodup := ((hv.map Prod.fst).nodup_iff).mpr hk
    rw [List.Nodup, List.pairwise_map] at hnd
    exact (hs.and hnd).imp (fun h => lt_of_le_of_ne h.1 h.2)
  exact List.eq_of_perm_of_sorted hperm
    (strict _ (List.perm_insertionSort _ v₁) (List.sorted_insertionSort _ v₁))
    (strict _ ((List.perm_insertionSort _ v₂).trans hp.symm) (List.sorted_insertionSort _ v₂))

theorem bind_ok_eq_map {α β : Type} (e : Except Err α) (g : α → β) :
    (do let f ← e; Except.ok (g f) : Except Err β) = e.map g := by
  cases e <;> rfl

/-- What the `values` setter does on a nonempty batch: sort the pairs by
time, rebuild the evaluator from the sorted rows with the current tag, and
on success return the new state. -/
theorem set_values_eq (s : EventSignal) (a : ℚ × ℚ) (l : List (ℚ × ℚ)) :
    set_values s (a :: l) =
      (interp1d (((a :: l).insertionSort (fun p q => p.1 ≤ q.1)).map Prod.fst)
          (((a :: l).insertionSort (fun p q => p.1 ≤ q.1)).map Prod.snd) s.interpolation).map
        (fun f => ⟨some ((a :: l).insertionSort (fun p q => p.1 ≤ q.1)),
          s.interpolation, some f⟩) := by
  rw [← bind_ok_eq_map]
  rfl

/-- C4 (amended): for every input batch the stored sample sequence is
non-decreasing by (encoded) timestamp; and `set_values` is
permutation-invariant — producing the identical signal state, hence
identical queryable behaviour — whenever the batch's timestamps are
pairwise distinct.  (With duplicate timestamps invariance fails, see the
counterexample.) -/
theorem set_values_sorted_and_perm_invariant (s : EventSignal) (v₁ v₂ : List (ℚ × ℚ)) :
    (∀ s' d, set_values s v₁ = .ok s' → s'.data = some d →
      List.Chain' (· ≤ ·) (d.map Prod.fst))
    ∧ (v₁.Perm v₂ → (v₁.map Prod.fst).Nodup → set_values s v₁ = set_values s v₂) := by
  constructor
  · intro s' d hok hd
    cases v₁ with
    | nil => exact absurd hok (by simp [set_values])
    | cons a l =>
      rw [set_values_eq] at hok
      cases hi : interp1d (((a :: l).insertionSort (fun p q => p.1 ≤ q.1)).map Prod.fst)
          (((a :: l).insertionSort (fun p q => p.1 ≤ q.1)).map Prod.snd) s.interpolation with
      | error e =>
          rw [hi] at hok
          exact absurd hok (by simp [Except.map])
      | ok f =>
          rw [hi] at hok
          simp only [Except.map] at hok
          injection hok with h
          subst h
          have hdd : some ((a :: l).insertionSort (fun p q => p.1 ≤ q.1)) = some d := hd
          injection hdd with h'
          subst h'
          exact insertionSort_key_sorted _
  · intro hp hk
    cases v₁ with
    | nil =>
      cases hp.nil_eq
      rfl
    | cons a l =>
      cases hv₂ : v₂ with
      | nil =>
        rw [hv₂] at hp
        simp at hp
      | cons b m =>
        rw [hv₂] at hp
        rw [set_values_eq, set_values_eq, insertionSort_eq_of_perm (a :: l) (b :: m) hp hk]

theorem set_values_sorted_and_perm_invariant_witness :
    set_values ⟨none, Kind.linear, none⟩ [(5, 1), (0, 2)]
      = set_values ⟨none, Kind.linear, none⟩ [(0, 2), (5, 1)]
    ∧ List.Chain' (· ≤ ·) ([((0:ℚ), (2:ℚ)), (5, 1)].map Prod.fst) := by
  obtain ⟨h1, h2⟩ := set_values_sorted_and_perm_invariant ⟨none, Kind.linear, none⟩
    [(5, 1), (0, 2)] [(0, 2), (5, 1)]
  refine ⟨h2 (List.Perm.swap (0, 2) (5, 1) []) (by decide), ?_⟩
  exact h1 ⟨some [(0, 2), (5, 1)], Kind.linear, some ⟨[0, 5], [2, 1], Kind.linear⟩⟩
    [(0, 2), (5, 1)] (by decide) rfl

/-- C4 counterexample: two permutations of the same batch — differing only
in the order of two samples that share the timestamp 5 — produce signals
that answer `valueAt(5)` differently (1 versus 2), so the resulting
queryable behaviour is *not* permutation-invariant when timestamps repeat. -/
theorem set_values_perm_counterexample :
    [((0:ℚ), (0:ℚ)), (5, 1), (5, 2), (10, 3)].Perm [((0:ℚ), (0:ℚ)), (5, 2), (5, 1), (10, 3)]
    ∧ (EventSignal.init (some [(0, 0), (5, 1), (5, 2), (10, 3)]) Kind.linear).bind
        (fun s => get_value_at_datetime s 5) = .ok 2
    ∧ (EventSignal.init (some [(0, 0), (5, 2), (5, 1), (10, 3)]) Kind.linear).bind
        (fun s => get_value_at_datetime s 5) = .ok 1 := by
  refine ⟨List.Perm.cons (0, 0) (List.Perm.swap (5, 2) (5, 1) [(10, 3)]), ?_, ?_⟩ <;>
    norm_num [EventSignal.init, set_values, List.insertionSort, List.orderedInsert,
      set_interpolation, interp1d, Kind.minval, Except.bind, Bind.bind, Except.map,
      get_value_at_datetime, check_time_index, EventSignal.start, EventSignal.end_,
      Interp1d.eval, Interp1d.evalVal, callLinear, searchsorted]

/-- The `interpolation` setter on a signal whose `_data` holds `d`
equals rebuilding the evaluator from the rows of `d` and updating the
state on success. -/
theorem set_interpolation_eq (d : List (ℚ × ℚ)) (si : Kind) (sf : Option Interp1d) (k : Kind) :
    set_interpolation ⟨some d, si, sf⟩ k
      = (interp1d (d.map Prod.fst) (d.map Prod.snd) k).map
          (fun f => ⟨some d, k, some f⟩) := by
  rw [← bind_ok_eq_map]
  rfl

/-- C8 (amended): on a signal that holds samples, the `interpolation`
setter fails (`NotImplementedError`) for an unsupported kind tag, fails
(`ValueError`) for a supported kind whose minimum point count exceeds the
sample count, and otherwise succeeds, storing the tag and immediately
rebuilding the evaluator from the current sample rows.  (On a signal with
no samples the setter validates nothing — see the counterexample.) -/
theorem set_interpolation_spec (s : EventSignal) (d : List (ℚ × ℚ))
    (hd : s.data = some d) (k : Kind) :
    (k.minval = none → set_interpolation s k = .error .notImplementedError)
    ∧ (∀ m, k.minval = some m → d.length < m →
        set_interpolation s k = .error .valueError)
    ∧ (∀ m, k.minval = some m → m ≤ d.length →
        set_interpolation s k
          = .ok ⟨some d, k, some ⟨d.map Prod.fst, d.map Prod.snd, k⟩⟩) := by
  obtain ⟨sd, si, sf⟩ := s
  obtain rfl : sd = some d := hd
  refine ⟨?_, ?_, ?_⟩
  · intro hm
    rw [set_interpolation_eq]
    unfold interp1d
    rw [hm]
    rfl
  · intro m hm hlen
    rw [set_interpolation_eq]
    unfold interp1d
    rw [hm]
    simp only []
    rw [if_pos (by simpa using hlen)]
    rfl
  · intro m hm hlen
    rw [set_interpolation_eq]
    unfold interp1d
    rw [hm]
    simp only []
    rw [if_neg (by simpa using not_lt.mpr hlen)]
    rfl

/-- C8 counterexample: on a Signal with no samples the setter accepts an
unsupported strategy tag without any failure — it merely stores it. -/
theorem set_interpolation_counterexample :
    set_interpolation ⟨none, Kind.linear, none⟩ Kind.unknown
      = .ok ⟨none, Kind.unknown, none⟩ := rfl

theorem set_interpolation_spec_witness :
    set_interpolation sigC2 Kind.cubic = .error .valueError
    ∧ set_interpolation sigC2 Kind.nearest
        = .ok ⟨some [(0, 1), (10, 3)], Kind.nearest,
            some ⟨[0, 10], [1, 3], Kind.nearest⟩⟩ :=
  ⟨(set_interpolation_spec sigC2 [(0, 1), (10, 3)] rfl Kind.cubic).2.1 4 rfl (by norm_num),
   (set_interpolation_spec sigC2 [(0, 1), (10, 3)] rfl Kind.nearest).2.2 2 rfl (by norm_num)⟩

/-! ## Round-trip analysis of the float64 time encoding (C7) -/

theorem roundHalfEven_sub_le (x : ℚ) : |(roundHalfEven x : ℚ) - x| ≤ 1 / 2 := by
  have h0 : (0:ℚ) ≤ x - ⌊x⌋ := by have := Int.floor_le x; linarith
  have h1 : x - ⌊x⌋ < 1 := by have := Int.lt_floor_add_one x; linarith
  unfold roundHalfEven
  split
  · rename_i h
    rw [abs_le]; constructor <;> linarith
  · split
    · rename_i h h'
      rw [abs_le]
      push_cast
      constructor <;> linarith
    · split
      · rename_i h h' h''
        have : x - ⌊x⌋ = 1/2 := by linarith
        rw [abs_le]; constructor <;> linarith
      · rename_i h h' h''
        have : x - ⌊x⌋ = 1/2 := by linarith
        push_cast
        rw [abs_le]; constructor <;> linarith

theorem roundHalfEven_eq_of_close (n : ℤ) (x : ℚ) (h : |x - n| < 1 / 2) :
    roundHalfEven x = n := by
  rw [abs_lt] at h
  obtain ⟨h1, h2⟩ := h
  unfold roundHalfEven
  rcases le_or_lt (n : ℚ) x with hge | hlt
  · have hf : ⌊x⌋ = n := by
      rw [Int.floor_eq_iff]
      refine ⟨hge, ?_⟩
      linarith
    rw [hf]
    split
    · rfl
    · rename_i hc
      exact absurd (by linarith : x - (n:ℚ) < 1/2) hc
  · have hf : ⌊x⌋ = n - 1 := by
      rw [Int.floor_eq_iff]
      push_cast
      constructor <;> linarith
    rw [hf]
    split
    · rename_i hc
      push_cast at hc
      linarith
    · split
      · omega
      · rename_i hc hc'
        push_cast at hc hc'
        linarith

theorem fl64_pos_err {x : ℚ} (hx : 0 < x) : |fl64 x - x| ≤ x / 2 ^ 53 := by
  have hx0 : x ≠ 0 := ne_of_gt hx
  have h2 : (2:ℚ) ≠ 0 := by norm_num
  unfold fl64
  rw [if_neg hx0, if_pos hx]
  set e := Int.log 2 x with he
  set y := x * 2 ^ ((52:ℤ) - e) with hy
  have hxy : x = y * 2 ^ (e - 52) := by
    rw [hy, mul_assoc, ← zpow_add₀ h2]
    norm_num
  have key : (roundHalfEven y : ℚ) * 2 ^ (e - 52) - x
      = ((roundHalfEven y : ℚ) - y) * 2 ^ (e - 52) := by
    rw [sub_mul, ← hxy]
  rw [key, abs_mul, abs_of_pos (zpow_pos (by norm_num : (0:ℚ) < 2) (e - 52))]
  have h1 : |(roundHalfEven y : ℚ) - y| * 2 ^ (e - 52) ≤ (1/2) * 2 ^ (e - 52) :=
    mul_le_mul_of_nonneg_right (roundHalfEven_sub_le y) (by positivity)
  refine h1.trans ?_
  have hlog : (2:ℚ) ^ e ≤ x := Int.zpow_log_le_self (by norm_num) hx
  have hhalf : (1/2 : ℚ) * 2 ^ (e - 52) = 2 ^ e / 2 ^ (53:ℤ) := by
    rw [one_div, ← zpow_neg_one, ← zpow_add₀ h2, div_eq_mul_inv, ← zpow_neg, ← zpow_add₀ h2]
    congr 1
    omega
  rw [hhalf]
  have h53 : ((2:ℚ) ^ (53:ℤ)) = (2:ℚ) ^ (53:ℕ) := by norm_num
  rw [h53]
  gcongr

theorem fl64_neg (x : ℚ) : fl64 (-x) = -fl64 x := by
  unfold fl64
  rcases lt_trichotomy x 0 with h | h | h
  · rw [if_neg (by linarith : -x ≠ 0), if_pos (by linarith : (0:ℚ) < -x),
      if_neg (ne_of_lt h), if_neg (by linarith : ¬ (0:ℚ) < x), neg_neg]
  · rw [h]
    norm_num
  · rw [if_neg (by linarith : -x ≠ 0), if_neg (by linarith : ¬ (0:ℚ) < -x),
      if_neg (ne_of_gt h), if_pos h, neg_neg]

theorem fl64_err (x : ℚ) : |fl64 x - x| ≤ |x| / 2 ^ 53 := by
  rcases lt_trichotomy x 0 with h | h | h
  · have := fl64_pos_err (by linarith : (0:ℚ) < -x)
    rw [fl64_neg] at this
    rw [abs_of_neg h]
    calc |fl64 x - x| = |(-(fl64 x - x))| := (abs_neg _).symm
      _ = |(-fl64 x - -x)| := by ring_nf
      _ ≤ -x / 2 ^ 53 := this
  · rw [h]
    unfold fl64
    norm_num
  · rw [abs_of_pos h]
    exact fl64_pos_err h

/-- C7 helper: the round trip is exact whenever the timestamp magnitude is
below `2^52` microseconds. -/
theorem roundtrip_exact (t : ℤ) (h : |t| < 2 ^ 52) :
    decode_datetime (encode_datetime t) = t := by
  unfold decode_datetime encode_datetime
  rcases eq_or_ne t 0 with rfl | ht
  · norm_num
    unfold fl64
    norm_num
    unfold roundHalfEven
    norm_num
  · apply roundHalfEven_eq_of_close
    have herr : |fl64 ((t:ℚ) / 10 ^ 6) - (t:ℚ) / 10 ^ 6| ≤ |(t:ℚ) / 10 ^ 6| / 2 ^ 53 :=
      fl64_err _
    have habs : |(t:ℚ) / 10 ^ 6| = |(t:ℚ)| / 10 ^ 6 := by
      rw [abs_div]
      norm_num
    have hlt : |(t:ℚ)| < 2 ^ 52 := by exact_mod_cast h
    have key : fl64 ((t:ℚ) / 10 ^ 6) * 10 ^ 6 - (t:ℚ)
        = (fl64 ((t:ℚ) / 10 ^ 6) - (t:ℚ) / 10 ^ 6) * 10 ^ 6 := by ring
    rw [key, abs_mul, abs_of_pos (by norm_num : (0:ℚ) < 10 ^ 6)]
    calc |fl64 ((t:ℚ) / 10 ^ 6) - (t:ℚ) / 10 ^ 6| * 10 ^ 6
        ≤ (|(t:ℚ)| / 10 ^ 6 / 2 ^ 53) * 10 ^ 6 := by
          rw [← habs]
          gcongr
      _ = |(t:ℚ)| / 2 ^ 53 := by ring
      _ < 2 ^ 52 / 2 ^ 53 := by gcongr
      _ = 1 / 2 := by norm_num

theorem encode_log_pow16 : Int.log 2 ((((10:ℤ) ^ 16 + 1 : ℤ) : ℚ) / 10 ^ 6) = 33 := by
  have hpos : (0:ℚ) < (((10:ℤ) ^ 16 + 1 : ℤ) : ℚ) / 10 ^ 6 := by positivity
  have h1 : ((2:ℚ)) ^ (33:ℤ) ≤ (((10:ℤ) ^ 16 + 1 : ℤ) : ℚ) / 10 ^ 6 := by
    rw [show ((2:ℚ)) ^ (33:ℤ) = (2:ℚ) ^ (33:ℕ) from by norm_num]
    push_cast
    norm_num
  have h2 : (((10:ℤ) ^ 16 + 1 : ℤ) : ℚ) / 10 ^ 6 < ((2:ℚ)) ^ (34:ℤ) := by
    rw [show ((2:ℚ)) ^ (34:ℤ) = (2:ℚ) ^ (34:ℕ) from by norm_num]
    push_cast
    norm_num
  have hlo := (Int.zpow_le_iff_le_log (by norm_num : 1 < 2) hpos).1 h1
  have hhi := (Int.lt_zpow_iff_log_lt (by norm_num : 1 < 2) hpos).1 h2
  omega

/-- C7 counterexample: the timestamp `10^16 + 1` microseconds
(year 2286, microsecond `.000001`) does not survive the float64 round
trip: `timestamp()` rounds it up onto the double lattice (spacing
`2^-19 s` at this magnitude) and `fromtimestamp` lands on `10^16 + 2`. -/
theorem roundtrip_counterexample : decode_datetime (encode_datetime (10 ^ 16 + 1)) = 10 ^ 16 + 2 := by
  have henc : encode_datetime (10 ^ 16 + 1) = 5242880000000001 / 2 ^ 19 := by
    unfold encode_datetime fl64
    rw [if_neg (by push_cast; positivity), if_pos (by push_cast; positivity), encode_log_pow16]
    rw [show ((52:ℤ) - 33) = (19:ℤ) from by norm_num,
      show ((33:ℤ) - 52) = (-19:ℤ) from by norm_num]
    rw [roundHalfEven_eq_of_close 5242880000000001 _ (by
      rw [abs_lt]
      push_cast
      constructor <;> norm_num)]
    rw [zpow_neg]
    push_cast
    norm_num
  rw [henc]
  unfold decode_datetime
  apply roundHalfEven_eq_of_close
  rw [abs_lt]
  push_cast
  constructor <;> norm_num


/-- C7: the round trip `decode(encode(t)) = t` holds whenever the
timestamp is within `2^52` microseconds of the epoch (about 142 years). -/
theorem roundtrip_below_2_pow_52 (t : ℤ) (h : |t| < 2 ^ 52) :
    decode_datetime (encode_datetime t) = t :=
  roundtrip_exact t h


theorem roundtrip_below_2_pow_52_witness :
    decode_datetime (encode_datetime 1234567) = 1234567 :=
  roundtrip_below_2_pow_52 1234567 (by norm_num)

/-! ## Orchestra snapshot claims -/

/-- C1: a snapshot of a flat Orchestra (all children Signals built from at
least one sample) never propagates a child's `OutOfBounds`: it returns —
with no error — exactly the name/value pairs of the children whose closed
domain `[sigStart, sigEnd]` contains `t`, each with its interpolated
value; out-of-range children are omitted, and if every child excludes `t`
the result is the empty mapping. -/
theorem snapshot_flat (elems : List (String × EventSignal))
    (h : ∀ p ∈ elems, WellFormed p.2) (t : ℚ) :
    get_dict_at_datetime (elems.map (fun p => (p.1, Element.signal p.2))) t =
      .ok ((elems.filter (fun p => decide (sigStart p.2 ≤ t ∧ t ≤ sigEnd p.2))).map
        (fun p => (p.1, SnapValue.scalar (sigVal p.2 t)))) := by
  unfold get_dict_at_datetime
  induction elems with
  | nil => simp [getDictList]
  | cons p rest ih =>
    obtain ⟨n, s⟩ := p
    have hws : WellFormed s := h (n, s) (List.mem_cons_self _ _)
    have hrest : ∀ q ∈ rest, WellFormed q.2 := fun q hq => h q (List.mem_cons_of_mem _ hq)
    rw [List.map_cons]
    rw [getDictList]
    simp only [Element.getitem]
    rw [valueAt_eq s hws t]
    by_cases hb : sigStart s ≤ t ∧ t ≤ sigEnd s
    · rw [if_pos hb]
      simp only [Except.map]
      rw [ih hrest]
      simp only [Except.map]
      rw [List.filter_cons, if_pos (by simpa using hb), List.map_cons]
    · rw [if_neg hb]
      simp only [Except.map]
      rw [ih hrest]
      rw [List.filter_cons, if_neg (by simpa using hb)]

mutual

/-- Every signal in the element tree is in a built (well-formed) state. -/
def Element.AllWF : Element → Prop
  | .signal s => WellFormed s
  | .orchestra elems => elemsAllWF elems

/-- `Element.AllWF` for each element of a child list. -/
def elemsAllWF : List (String × Element) → Prop
  | [] => True
  | p :: rest => Element.AllWF p.2 ∧ elemsAllWF rest

end

mutual

theorem getitem_total (e : Element) (h : Element.AllWF e) (t : ℚ) :
    (∃ v, Element.getitem e t = .ok v) ∨ Element.getitem e t = .error .valueError := by
  cases e with
  | signal s =>
    have hw : WellFormed s := by rwa [Element.AllWF] at h
    rw [Element.getitem, valueAt_eq s hw t]
    by_cases hb : sigStart s ≤ t ∧ t ≤ sigEnd s
    · rw [if_pos hb]
      exact Or.inl ⟨.scalar (sigVal s t), rfl⟩
    · rw [if_neg hb]
      exact Or.inr rfl
  | orchestra elems =>
    obtain ⟨l, hl⟩ := getDictList_total elems (by rwa [Element.AllWF] at h) t
    rw [Element.getitem, hl]
    exact Or.inl ⟨.dict l, rfl⟩

theorem getDictList_total (elems : List (String × Element)) (h : elemsAllWF elems) (t : ℚ) :
    ∃ l, getDictList elems t = .ok l := by
  cases elems with
  | nil => exact ⟨[], by rw [getDictList]⟩
  | cons p rest =>
    obtain ⟨n, e⟩ := p
    rw [elemsAllWF] at h
    obtain ⟨l, hl⟩ := getDictList_total rest h.2 t
    rcases getitem_total e h.1 t with ⟨v, hv⟩ | hv
    · refine ⟨(n, v) :: l, ?_⟩
      rw [getDictList, hv, hl]
      rfl
    · refine ⟨l, ?_⟩
      rw [getDictList, hv]
      exact hl

end

/-- C10: on an Orchestra all of whose descendant Signals are built from at
least one sample, `get_dict_at_datetime` never raises — for every `t`,
including `t` outside the Orchestra's own bounds — and every direct child
that is itself an Orchestra always appears in the result, mapped to its
own (possibly empty) recursively computed dictionary; only Signal
children can be omitted. -/
theorem snapshot_total_nested_kept (elems : List (String × Element))
    (h : elemsAllWF elems) (t : ℚ) :
    ∃ l, get_dict_at_datetime elems t = .ok l
      ∧ ∀ n sub, (n, Element.orchestra sub) ∈ elems →
          ∃ sl, get_dict_at_datetime sub t = .ok sl ∧ (n, SnapValue.dict sl) ∈ l := by
  unfold get_dict_at_datetime
  induction elems with
  | nil =>
    refine ⟨[], by rw [getDictList], ?_⟩
    intro n sub hmem
    exact absurd hmem (List.not_mem_nil _)
  | cons p rest ih =>
    obtain ⟨n₀, e₀⟩ := p
    rw [elemsAllWF] at h
    obtain ⟨l, hl, hmem⟩ := ih h.2
    rcases getitem_total e₀ h.1 t with ⟨v, hv⟩ | hv
    · refine ⟨(n₀, v) :: l, by rw [getDictList, hv, hl]; rfl, ?_⟩
      intro n sub hin
      rcases List.mem_cons.mp hin with hhead | htail
      · injection hhead with hn he
        subst hn
        obtain ⟨sl, hsl⟩ := getDictList_total sub
          (by rw [← he, Element.AllWF] at h; exact h.1) t
        refine ⟨sl, hsl, ?_⟩
        have : v = SnapValue.dict sl := by
          rw [← he, Element.getitem, hsl] at hv
          exact (Except.ok.inj hv).symm
        rw [this]
        exact List.mem_cons_self _ _
      · obtain ⟨sl, hsl, hslmem⟩ := hmem n sub htail
        exact ⟨sl, hsl, List.mem_cons_of_mem _ hslmem⟩
    · refine ⟨l, by rw [getDictList, hv]; exact hl, ?_⟩
      intro n sub hin
      rcases List.mem_cons.mp hin with hhead | htail
      · injection hhead with hn he
        obtain ⟨sl, hsl⟩ := getDictList_total sub
          (by rw [← he, Element.AllWF] at h; exact h.1) t
        rw [← he, Element.getitem, hsl] at hv
        exact absurd hv (by simp [Except.map])
      · exact hmem n sub htail

theorem minFoldStart_spec (rest : List (String × Element)) (qs : List ℚ)
    (h : List.Forall₂ (fun p q => Element.startE p.2 = .ok (some q)) rest qs) (a : ℚ) :
    minFoldStart (some a) rest = .ok (some (qs.foldl min a)) := by
  induction h generalizing a with
  | nil => rw [minFoldStart, List.foldl_nil]
  | @cons p q prest qrest hpq hrest ih =>
    obtain ⟨n, e⟩ := p
    rw [minFoldStart, hpq]
    show minFoldStart (some (if q < a then q else a)) prest = _
    rw [List.foldl_cons, ih]
    congr 2
    rcases le_or_lt a q with hle | hlt
    · rw [if_neg (not_lt.mpr hle), min_eq_left hle]
    · rw [if_pos hlt, min_eq_right (le_of_lt hlt)]

theorem maxFoldEnd_spec (rest : List (String × Element)) (qs : List ℚ)
    (h : List.Forall₂ (fun p q => Element.endE p.2 = .ok (some q)) rest qs) (a : ℚ) :
    maxFoldEnd (some a) rest = .ok (some (qs.foldl max a)) := by
  induction h generalizing a with
  | nil => rw [maxFoldEnd, List.foldl_nil]
  | @cons p q prest qrest hpq hrest ih =>
    obtain ⟨n, e⟩ := p
    rw [maxFoldEnd, hpq]
    show maxFoldEnd (some (if a < q then q else a)) prest = _
    rw [List.foldl_cons, ih]
    congr 2
    rcases le_or_lt q a with hle | hlt
    · rw [if_neg (not_lt.mpr hle), max_eq_left hle]
    · rw [if_pos hlt, max_eq_right (le_of_lt hlt)]

/-- C5: on an Orchestra with at least one direct child, each of whose
children yields a well-defined `start` (respectively `end`) — a nested
Orchestra child contributing its own recursively computed bound — the
`start` property is the minimum of the children's start values and the
`end` property is the maximum of the children's end values (Python's
`min`/`max` as a left fold). -/
theorem orchestra_bounds (n₀ : String) (e₀ : Element) (rest : List (String × Element))
    (q₀ r₀ : ℚ) (qs rs : List ℚ)
    (hs₀ : Element.startE e₀ = .ok (some q₀))
    (hs : List.Forall₂ (fun p q => Element.startE p.2 = .ok (some q)) rest qs)
    (he₀ : Element.endE e₀ = .ok (some r₀))
    (he : List.Forall₂ (fun p q => Element.endE p.2 = .ok (some q)) rest rs) :
    Element.startE (.orchestra ((n₀, e₀) :: rest)) = .ok (some (qs.foldl min q₀))
    ∧ Element.endE (.orchestra ((n₀, e₀) :: rest)) = .ok (some (rs.foldl max r₀)) := by
  constructor
  · rw [Element.startE, hs₀]
    show minFoldStart (some q₀) rest = _
    exact minFoldStart_spec rest qs hs q₀
  · rw [Element.endE, he₀]
    show maxFoldEnd (some r₀) rest = _
    exact maxFoldEnd_spec rest rs he r₀

/-- Concrete signal spanning `[0, 10]` (values 1 → 2, linear). -/
def sigA : EventSignal :=
  ⟨some [(0, 1), (10, 2)], Kind.linear, some ⟨[0, 10], [1, 2], Kind.linear⟩⟩

/-- Concrete signal spanning `[5, 15]` (values 3 → 4, linear). -/
def sigB : EventSignal :=
  ⟨some [(5, 3), (15, 4)], Kind.linear, some ⟨[5, 15], [3, 4], Kind.linear⟩⟩

theorem snapshot_flat_witness :
    get_dict_at_datetime [("A", Element.signal sigA), ("B", Element.signal sigB)] 2
      = .ok [("A", SnapValue.scalar (6 / 5))] := by
  have h := snapshot_flat [("A", sigA), ("B", sigB)] (by decide) 2
  rw [show ([("A", Element.signal sigA), ("B", Element.signal sigB)]
      : List (String × Element))
    = [("A", sigA), ("B", sigB)].map (fun p => (p.1, Element.signal p.2)) from rfl, h]
  norm_num [sigStart, sigEnd, sigVal, sigA, sigB, Interp1d.evalVal, callLinear,
    searchsorted, List.filter]

/-- Concrete constant signals spanning `[0, 20]`, `[5, 15]`, `[10, 25]`. -/
def sig0 : EventSignal :=
  ⟨some [(0, 1), (20, 1)], Kind.linear, some ⟨[0, 20], [1, 1], Kind.linear⟩⟩

def sig5 : EventSignal :=
  ⟨some [(5, 1), (15, 1)], Kind.linear, some ⟨[5, 15], [1, 1], Kind.linear⟩⟩

def sig10 : EventSignal :=
  ⟨some [(10, 1), (25, 1)], Kind.linear, some ⟨[10, 25], [1, 1], Kind.linear⟩⟩

theorem orchestra_bounds_witness :
    Element.startE (.orchestra
        [("a", .signal sig0), ("b", .signal sig5), ("c", .signal sig10)])
      = .ok (some 0)
    ∧ Element.endE (.orchestra
        [("a", .signal sig0), ("b", .signal sig5), ("c", .signal sig10)])
      = .ok (some 25) := by
  obtain ⟨h1, h2⟩ := orchestra_bounds "a" (.signal sig0)
    [("b", .signal sig5), ("c", .signal sig10)] 0 20 [5, 10] [15, 25]
    (by rw [Element.startE]; rfl)
    (List.Forall₂.cons (by rw [Element.startE]; rfl)
      (List.Forall₂.cons (by rw [Element.startE]; rfl) List.Forall₂.nil))
    (by rw [Element.endE]; rfl)
    (List.Forall₂.cons (by rw [Element.endE]; rfl)
      (List.Forall₂.cons (by rw [Element.endE]; rfl) List.Forall₂.nil))
  refine ⟨h1.trans ?_, h2.trans ?_⟩ <;> norm_num [min_def, max_def]

theorem snapshot_total_nested_kept_witness :
    ∃ l, get_dict_at_datetime
        [("sub", Element.orchestra [("x", Element.signal sigB)]),
         ("in", Element.signal sigA)] 2 = .ok l
      ∧ ∀ n sub, (n, Element.orchestra sub) ∈
            ([("sub", Element.orchestra [("x", Element.signal sigB)]),
              ("in", Element.signal sigA)] : List (String × Element)) →
          ∃ sl, get_dict_at_datetime sub 2 = .ok sl ∧ (n, SnapValue.dict sl) ∈ l :=
  snapshot_total_nested_kept _
    (by
      simp only [elemsAllWF, Element.AllWF]
      exact ⟨⟨by decide, trivial⟩, by decide, trivial⟩) 2
